import Mathlib

/-!
Verification of the LOB protocol-part layer of go-hdb
(`driver/internal/protocol/lob.go`, `driver/internal/protocol/parts.go`).

Bytes are modelled as natural numbers below 256; multi-byte integers are
serialised little-endian; signed machine integers are modelled as `Int`
with explicit twos-complement conversion at the wire boundary.
-/

namespace GoHdb

/-- Wire bytes are modelled as natural numbers; encoders keep them below 256. -/
abbrev Byte := Nat

/-- Little-endian serialisation of `v` into `n` bytes (low byte first). -/
def toBytesLE : Nat → Nat → List Byte
  | 0, _ => []
  | n + 1, v => v % 256 :: toBytesLE n (v / 256)

/-- Little-endian deserialisation of a byte list into a natural number. -/
def fromBytesLE : List Byte → Nat
  | [] => 0
  | b :: bs => b + 256 * fromBytesLE bs

/-- Unsigned `w`-bit twos-complement representation of a signed integer. -/
def toUnsigned (w : Nat) (v : Int) : Nat := (v % ((2 : Int) ^ w)).toNat

/-- Signed reading of an unsigned `w`-bit value (twos complement). -/
def toSigned (w : Nat) (u : Nat) : Int :=
  if u < 2 ^ (w - 1) then (u : Int) else (u : Int) - 2 ^ w

/-- Modelled from the spec: the primitive codec collaborator
(package `driver/internal/protocol/encoding`, not among the given sources).
A byte-cursor decoder that accumulates the first error encountered and
suppresses further attempts (sticky-error discipline, spec section 6). -/
structure Decoder where
  bs : List Byte
  err : Bool
  deriving DecidableEq, Repr

/-- Modelled from the spec: read `n` raw bytes; on exhausted input the error
is latched and zero values are returned; once latched, nothing is consumed. -/
def Decoder.readN (d : Decoder) (n : Nat) : List Byte × Decoder :=
  if d.err then (List.replicate n 0, d)
  else if n ≤ d.bs.length then (d.bs.take n, { d with bs := d.bs.drop n })
  else (List.replicate n 0, { bs := [], err := true })

/-- Modelled from the spec: cursor read of an unsigned 64-bit integer. -/
def Decoder.uint64 (d : Decoder) : Nat × Decoder :=
  let p := d.readN 8
  (fromBytesLE p.1, p.2)

/-- Modelled from the spec: cursor read of a single byte. The Go field
`LobOptions` is an `int8`; we model its unsigned bit pattern, the two being
in bijection and every operation on it bitwise. -/
def Decoder.byte (d : Decoder) : Byte × Decoder :=
  let p := d.readN 1
  (fromBytesLE p.1, p.2)

/-- Modelled from the spec: cursor read of a signed 64-bit integer. -/
def Decoder.int64 (d : Decoder) : Int × Decoder :=
  let p := d.readN 8
  (toSigned 64 (fromBytesLE p.1), p.2)

/-- Modelled from the spec: cursor read of a signed 32-bit integer. -/
def Decoder.int32 (d : Decoder) : Int × Decoder :=
  let p := d.readN 4
  (toSigned 32 (fromBytesLE p.1), p.2)

/-- Modelled from the spec: skip `n` bytes. -/
def Decoder.skip (d : Decoder) (n : Nat) : Decoder := (d.readN n).2

/-- Modelled from the spec: read a raw byte run of length `n`. -/
def Decoder.bytes (d : Decoder) (n : Nat) : List Byte × Decoder := d.readN n

/-- Modelled from the spec: query the latched error state (`dec.Error()`). -/
def Decoder.error (d : Decoder) : Bool := d.err

/-- Modelled from the spec: encoder put of an unsigned 64-bit integer. -/
def encUint64 (v : Nat) : List Byte := toBytesLE 8 v

/-- Modelled from the spec: encoder put of a signed 64-bit integer. -/
def encInt64 (v : Int) : List Byte := toBytesLE 8 (toUnsigned 64 v)

/-- Modelled from the spec: encoder put of a signed 32-bit integer. -/
def encInt32 (v : Int) : List Byte := toBytesLE 4 (toUnsigned 32 v)

/-- Modelled from the spec: encoder put of one options byte (`enc.Int8` of the
`int8`-typed `LobOptions`; we write its unsigned bit pattern). -/
def encLobOptions (o : Nat) : List Byte := [o % 256]

/-- Modelled from the spec: encoder put of a raw byte run. -/
def encBytes (b : List Byte) : List Byte := b

/-- Modelled from the spec: encoder put of `n` zero bytes (`enc.Zeroes`). -/
def encZeroes (n : Nat) : List Byte := List.replicate n 0

/-- LobOptions represents a lob option set (Go type `int8`, modelled by its
unsigned byte pattern). -/
abbrev LobOptions := Nat

def loNullindicator : LobOptions := 0x01
def loDataincluded : LobOptions := 0x02
def loLastdata : LobOptions := 0x04

/-- IsLastData returns true if the last data package was read. -/
def LobOptions.IsLastData (o : LobOptions) : Bool := (o &&& loLastdata) != 0

/-- Null test on a lob option set. -/
def LobOptions.isNull (o : LobOptions) : Bool := (o &&& loNullindicator) != 0

/-- Terminal outcome of the application-supplied byte source once its bytes
are exhausted: clean end of input, truncated end of input, or another error. -/
inductive ReadTerminal where
  | eof
  | unexpectedEof
  | errOther (msg : String)
  deriving DecidableEq, Repr

/-- A finite byte source: the remaining bytes and the terminal outcome
reported once they run out (the `io.Reader` feeding a lob write). -/
structure ByteSource where
  bs : List Byte
  terminal : ReadTerminal
  deriving DecidableEq, Repr

/-- Model of `io.CopyN(dst, src, n)`: copy up to `n` bytes. If `n` bytes are
available the copy succeeds without observing the source terminal; otherwise
all remaining bytes are copied and the source terminal is reported. -/
def copyN (src : ByteSource) (n : Nat) : List Byte × ByteSource × Option ReadTerminal :=
  if n ≤ src.bs.length then (src.bs.take n, { src with bs := src.bs.drop n }, none)
  else (src.bs, { src with bs := [] }, some src.terminal)

/-- LobInDescr represents a lob input descriptor. -/
structure LobInDescr where
  rd : ByteSource
  Opt : LobOptions
  pos : Nat
  buf : List Byte
  deriving DecidableEq, Repr

/-- Fresh lob input descriptor over a source (`newLobInDescr`). -/
def newLobInDescr (rd : ByteSource) : LobInDescr :=
  { rd := rd, Opt := 0, pos := 0, buf := [] }

/-- FetchNext fetches the next lob chunk: reset the staging buffer, copy up to
`chunkSize` bytes from the source, set the options to data-included; an
end-of-input (clean or truncated) additionally sets last-data, any other
source error is returned as is. -/
def LobInDescr.FetchNext (d : LobInDescr) (chunkSize : Nat) :
    LobInDescr × Option ReadTerminal :=
  let c := copyN d.rd chunkSize
  let d' : LobInDescr := { d with buf := c.1, rd := c.2.1, Opt := loDataincluded }
  match c.2.2 with
  | none => (d', none)
  | some .eof => ({ d' with Opt := d'.Opt ||| loLastdata }, none)
  | some .unexpectedEof => ({ d' with Opt := d'.Opt ||| loLastdata }, none)
  | some (.errOther m) => (d', some (.errOther m))

/-- Cursor setter of a lob input descriptor. -/
def LobInDescr.setPos (d : LobInDescr) (pos : Nat) : LobInDescr := { d with pos := pos }

/-- Size of the staged chunk. -/
def LobInDescr.size (d : LobInDescr) : Nat := d.buf.length

/-- Emit the staged first chunk (`writeFirst`). -/
def LobInDescr.writeFirst (d : LobInDescr) : List Byte := encBytes d.buf

/-- LocatorID represents a locator id (`uint64`). -/
abbrev LocatorID := Nat

/-- WriteLobDescr represents a lob descriptor for writes (lob to db). The Go
field `LobInDescr` is a pointer; `none` models the nil pointer a sniffer
decode leaves behind. -/
structure WriteLobDescr where
  lobInDescr : Option LobInDescr
  ID : LocatorID
  Opt : LobOptions
  ofs : Int
  b : List Byte
  deriving DecidableEq, Repr

/-- FetchNext fetches the next lob chunk through the inner descriptor and on
success copies its options, sets the offset to the append sentinel `-1` and
takes the staged bytes as payload. `none` models a nil inner descriptor. -/
def WriteLobDescr.FetchNext (w : WriteLobDescr) (chunkSize : Nat) :
    Option (WriteLobDescr × Option ReadTerminal) :=
  match w.lobInDescr with
  | none => none
  | some d =>
    match d.FetchNext chunkSize with
    | (d', some e) => some ({ w with lobInDescr := some d' }, some e)
    | (d', none) =>
      some ({ w with lobInDescr := some d', Opt := d'.Opt, ofs := -1, b := d'.buf }, none)

/-- Sniffer decode of a write-lob descriptor: locator id, options byte,
offset, payload size, payload bytes. The Go code returns nil unconditionally;
`none` models only the panic of `make` on a negative size. -/
def WriteLobDescr.decode (dec : Decoder) : Option (WriteLobDescr × Decoder) :=
  let p1 := dec.uint64
  let p2 := p1.2.byte
  let p3 := p2.2.int64
  let p4 := p3.2.int32
  if p4.1 < 0 then none
  else
    let p5 := p4.2.bytes p4.1.toNat
    some ({ lobInDescr := none, ID := p1.1, Opt := p2.1, ofs := p3.1, b := p5.1 }, p5.2)

/-- Encode a write-lob chunk descriptor: locator id, options byte, offset,
payload length, payload bytes. -/
def WriteLobDescr.encode (w : WriteLobDescr) : List Byte :=
  encUint64 w.ID ++ encLobOptions w.Opt ++ encInt64 w.ofs ++
    encInt32 (w.b.length : Int) ++ encBytes w.b

/-- Fixed overhead of one encoded write-lob chunk descriptor
(`writeLobRequestSize`). -/
def writeLobRequestSize : Nat := 21

/-- WriteLobRequest represents a lob write request part. -/
structure WriteLobRequest where
  Descrs : List WriteLobDescr
  deriving DecidableEq, Repr

/-- Size of a write-lob request: fixed overhead plus payload, per descriptor. -/
def WriteLobRequest.size (r : WriteLobRequest) : Nat :=
  r.Descrs.foldl (fun size descr => size + (writeLobRequestSize + descr.b.length)) 0

/-- Argument count of a write-lob request. -/
def WriteLobRequest.numArg (r : WriteLobRequest) : Nat := r.Descrs.length

/-- Decode `n` write-lob descriptors in sequence. -/
def decodeDescrs : Nat → Decoder → Option (List WriteLobDescr × Decoder)
  | 0, dec => some ([], dec)
  | n + 1, dec =>
    match WriteLobDescr.decode dec with
    | none => none
    | some (d, dec') =>
      match decodeDescrs n dec' with
      | none => none
      | some (ds, dec'') => some (d :: ds, dec'')

/-- Sniffer decode of a write-lob request: decode `numArg` descriptors. The
Go code returns the first descriptor error, which is always nil, so a `some`
result corresponds to a nil error returned by the Go method. -/
def WriteLobRequest.decodeNumArg (dec : Decoder) (numArg : Nat) :
    Option (WriteLobRequest × Decoder) :=
  (decodeDescrs numArg dec).map (fun p => ({ Descrs := p.1 }, p.2))

/-- Encode a write-lob request: each descriptor in order. -/
def WriteLobRequest.encode (r : WriteLobRequest) : List Byte :=
  r.Descrs.foldr (fun descr out => descr.encode ++ out) []

/-- WriteLobReply represents a lob write reply part: the locator ids not yet
written completely. -/
structure WriteLobReply where
  IDs : List LocatorID
  deriving DecidableEq, Repr

/-- Decode `n` locator ids in sequence. -/
def decodeIDs : Nat → Decoder → List LocatorID × Decoder
  | 0, dec => ([], dec)
  | n + 1, dec =>
    let p := dec.uint64
    let q := decodeIDs n p.2
    (p.1 :: q.1, q.2)

/-- Decode a write-lob reply: `numArg` locator ids, then return the latched
decoder error state (`return dec.Error()`); the final component is the error
value the Go method returns (`true` for a non-nil error). -/
def WriteLobReply.decodeNumArg (dec : Decoder) (numArg : Nat) :
    WriteLobReply × Decoder × Bool :=
  let p := decodeIDs numArg dec
  ({ IDs := p.1 }, p.2, p.2.error)

/-- ReadLobRequest represents a lob read request part. -/
structure ReadLobRequest where
  ID : LocatorID
  Ofs : Int
  ChunkSize : Int
  deriving DecidableEq, Repr

/-- Sniffer decode of a read-lob request: locator id, offset, chunk size,
4 skipped bytes. -/
def ReadLobRequest.decode (dec : Decoder) : ReadLobRequest × Decoder :=
  let p1 := dec.uint64
  let p2 := p1.2.int64
  let p3 := p2.2.int32
  let d4 := p3.2.skip 4
  ({ ID := p1.1, Ofs := p2.1, ChunkSize := p3.1 }, d4)

/-- Encode a read-lob request: locator id, the stored 0-based offset plus one
(1-based on the wire), chunk size, 4 zero bytes. -/
def ReadLobRequest.encode (r : ReadLobRequest) : List Byte :=
  encUint64 r.ID ++ encInt64 (r.Ofs + 1) ++ encInt32 r.ChunkSize ++ encZeroes 4

/-- Fixed size of an encoded read-lob request (`readLobRequestSize`). -/
def readLobRequestSize : Nat := 24

/-- Size of a read-lob request part. -/
def ReadLobRequest.size (_ : ReadLobRequest) : Nat := readLobRequestSize

/-- Argument count of a read-lob request part. -/
def ReadLobRequest.numArg (_ : ReadLobRequest) : Nat := 1

/-- ReadLobReply represents a lob read reply part. -/
structure ReadLobReply where
  ID : LocatorID
  Opt : LobOptions
  B : List Byte
  deriving DecidableEq, Repr

/-- Decode a read-lob reply: exactly one entry. An announced count other than
one panics in Go (`numArg == 1 expected`), modelled as `none`; otherwise one
locator id, one options byte, a size field, 3 skipped bytes, `size` payload
bytes. A negative size panics in `slices.Grow`, also modelled as `none`. -/
def ReadLobReply.decodeNumArg (dec : Decoder) (numArg : Nat) :
    Option (ReadLobReply × Decoder) :=
  if numArg ≠ 1 then none
  else
    let p1 := dec.uint64
    let p2 := p1.2.byte
    let p3 := p2.2.int32
    let d4 := p3.2.skip 3
    if p3.1 < 0 then none
    else
      let p5 := d4.bytes p3.1.toNat
      some ({ ID := p1.1, Opt := p2.1, B := p5.1 }, p5.2)

/-- Modelled from the spec: the write-loop driver (it lives outside the given
sources) repeatedly calls `FetchNext` until the last-data option is set,
collecting each staged chunk together with its options. Fuel makes the loop
total; `none` means fuel ran out or the source failed. -/
def fetchLoop (chunkSize : Nat) : Nat → LobInDescr → Option (List (List Byte × LobOptions))
  | 0, _ => none
  | fuel + 1, d =>
    match d.FetchNext chunkSize with
    | (_, some _) => none
    | (d', none) =>
      if LobOptions.IsLastData d'.Opt then some [(d'.buf, d'.Opt)]
      else (fetchLoop chunkSize fuel d').map (fun l => (d'.buf, d'.Opt) :: l)

/-- PartKind is the discriminant tag of a protocol part (the kinds named in
`parts.go`; the full enumeration lives outside the given sources). -/
inductive PartKind where
  | PkError
  | PkAuthentication
  | PkClientID
  | PkClientInfo
  | PkTopologyInformation
  | PkCommand
  | PkRowsAffected
  | PkStatementID
  | PkParameterMetadata
  | PkParameters
  | PkOutputParameters
  | PkResultMetadata
  | PkResultsetID
  | PkResultset
  | PkFetchSize
  | PkReadLobRequest
  | PkReadLobReply
  | PkWriteLobRequest
  | PkWriteLobReply
  | PkClientContext
  | PkConnectOptions
  | PkTransactionFlags
  | PkStatementContext
  | PkDBConnectInfo
  deriving DecidableEq, Repr

/-- GenPart is a generically constructible part instance. The lob parts carry
their data as defined in `lob.go`; the payloads of the remaining variants are
outside the given sources and are modelled as payload-free placeholders, whose
zero value carries no information. -/
inductive GenPart where
  | hdbErrors
  | clientID
  | clientInfo
  | topologyInformation
  | command
  | rowsAffected
  | statementID
  | resultsetID
  | fetchsize
  | readLobRequest (r : ReadLobRequest)
  | readLobReply (r : ReadLobReply)
  | writeLobReply (r : WriteLobReply)
  | writeLobRequest (r : WriteLobRequest)
  | optionsClientContext
  | optionsConnect
  | optionsTransactionFlags
  | optionsStatementContext
  | optionsDBConnectInfo
  deriving DecidableEq, Repr

/-- The registration table of `parts.go` composed with `reflect.New`: each
registered kind is mapped to the zero-valued instance of its variant. -/
def genPartTypeMap : PartKind → Option GenPart
  | .PkError => some .hdbErrors
  | .PkClientID => some .clientID
  | .PkClientInfo => some .clientInfo
  | .PkTopologyInformation => some .topologyInformation
  | .PkCommand => some .command
  | .PkRowsAffected => some .rowsAffected
  | .PkStatementID => some .statementID
  | .PkResultsetID => some .resultsetID
  | .PkFetchSize => some .fetchsize
  | .PkReadLobRequest => some (.readLobRequest { ID := 0, Ofs := 0, ChunkSize := 0 })
  | .PkReadLobReply => some (.readLobReply { ID := 0, Opt := 0, B := [] })
  | .PkWriteLobReply => some (.writeLobReply { IDs := [] })
  | .PkWriteLobRequest => some (.writeLobRequest { Descrs := [] })
  | .PkClientContext => some .optionsClientContext
  | .PkConnectOptions => some .optionsConnect
  | .PkTransactionFlags => some .optionsTransactionFlags
  | .PkStatementContext => some .optionsStatementContext
  | .PkDBConnectInfo => some .optionsDBConnectInfo
  | _ => none

/-- The kinds registered in `genPartTypeMap`. -/
def registeredKinds : List PartKind :=
  [.PkError, .PkClientID, .PkClientInfo, .PkTopologyInformation, .PkCommand,
   .PkRowsAffected, .PkStatementID, .PkResultsetID, .PkFetchSize,
   .PkReadLobRequest, .PkReadLobReply, .PkWriteLobReply, .PkWriteLobRequest,
   .PkClientContext, .PkConnectOptions, .PkTransactionFlags,
   .PkStatementContext, .PkDBConnectInfo]

/-- newGenPartReader returns a generic part reader: nothing for the
authentication kind, otherwise the registered zero-valued instance, nothing
for unregistered kinds. -/
def newGenPartReader (kind : PartKind) : Option GenPart :=
  if kind = .PkAuthentication then none
  else genPartTypeMap kind

/-! Helper lemmas about the byte-level codec. -/

theorem toBytesLE_length (n v : Nat) : (toBytesLE n v).length = n := by
  induction n generalizing v with
  | zero => rfl
  | succ m ih => simp [toBytesLE, ih]

theorem fromBytesLE_toBytesLE (n v : Nat) :
    fromBytesLE (toBytesLE n v) = v % 256 ^ n := by
  induction n generalizing v with
  | zero => simp [toBytesLE, fromBytesLE, Nat.mod_one]
  | succ m ih =>
    rw [toBytesLE, fromBytesLE, ih, pow_succ, mul_comm (256 ^ m) 256, Nat.mod_mul]

theorem fromBytesLE_toBytesLE_of_lt (n v : Nat) (h : v < 256 ^ n) :
    fromBytesLE (toBytesLE n v) = v := by
  rw [fromBytesLE_toBytesLE, Nat.mod_eq_of_lt h]

theorem fromBytesLE_replicate_zero (n : Nat) :
    fromBytesLE (List.replicate n 0) = 0 := by
  induction n with
  | zero => rfl
  | succ m ih => simp [List.replicate_succ, fromBytesLE, ih]

theorem toUnsigned_lt (w : Nat) (v : Int) : toUnsigned w v < 2 ^ w := by
  unfold toUnsigned
  have h1 : (0 : Int) < 2 ^ w := by positivity
  have h2 : v % 2 ^ w < 2 ^ w := Int.emod_lt_of_pos v h1
  have hc : ((2 ^ w : Nat) : Int) = (2 : Int) ^ w := by push_cast; ring
  omega

theorem toSigned_toUnsigned (w : Nat) (v : Int) (hw : 1 ≤ w)
    (h1 : -(2 ^ (w - 1)) ≤ v) (h2 : v < 2 ^ (w - 1)) :
    toSigned w (toUnsigned w v) = v := by
  have hpow : (2 : Int) ^ w = 2 ^ (w - 1) * 2 := by
    conv_lhs => rw [show w = (w - 1) + 1 by omega]
    rw [pow_succ]
  have hcast : ((2 ^ (w - 1) : Nat) : Int) = (2 : Int) ^ (w - 1) := by push_cast; ring
  have hP : (0 : Int) < 2 ^ (w - 1) := by positivity
  have hmodpos : 0 ≤ v % 2 ^ w := Int.emod_nonneg v (by positivity)
  have hmod : v % 2 ^ w = if 0 ≤ v then v else v + 2 ^ w := by
    split
    · exact Int.emod_eq_of_lt (by assumption) (by omega)
    · have hshift : (v + 2 ^ w * 1) % 2 ^ w = v % 2 ^ w :=
        Int.add_mul_emod_self_left v (2 ^ w) 1
      rw [mul_one] at hshift
      rw [← hshift]
      exact Int.emod_eq_of_lt (by omega) (by omega)
  have hu : ((toUnsigned w v : Nat) : Int) = v % 2 ^ w :=
    Int.toNat_of_nonneg hmodpos
  unfold toSigned
  split <;> rename_i hcond
  · have : ((toUnsigned w v : Nat) : Int) < 2 ^ (w - 1) := by
      rw [← hcast]; exact_mod_cast hcond
    omega
  · have : ¬ ((toUnsigned w v : Nat) : Int) < 2 ^ (w - 1) := by
      rw [← hcast]; exact_mod_cast hcond
    omega

/-! Helper lemmas about decoder steps on encoded prefixes. -/

theorem Decoder.readN_exact (l rest : List Byte) :
    Decoder.readN ⟨l ++ rest, false⟩ l.length = (l, ⟨rest, false⟩) := by
  unfold Decoder.readN
  simp [List.take_left, List.drop_left]

theorem Decoder.uint64_enc (v : Nat) (rest : List Byte) (hv : v < 2 ^ 64) :
    Decoder.uint64 ⟨encUint64 v ++ rest, false⟩ = (v, ⟨rest, false⟩) := by
  have h8 : (encUint64 v).length = 8 := toBytesLE_length 8 v
  unfold Decoder.uint64
  rw [show (8 : Nat) = (encUint64 v).length from h8.symm, Decoder.readN_exact]
  dsimp only [encUint64]
  rw [
    fromBytesLE_toBytesLE_of_lt 8 v (by norm_num at hv ⊢; omega)]

theorem Decoder.int64_enc (v : Int) (rest : List Byte)
    (h1 : -(2 ^ 63) ≤ v) (h2 : v < 2 ^ 63) :
    Decoder.int64 ⟨encInt64 v ++ rest, false⟩ = (v, ⟨rest, false⟩) := by
  have h8 : (encInt64 v).length = 8 := toBytesLE_length 8 _
  unfold Decoder.int64
  rw [show (8 : Nat) = (encInt64 v).length from h8.symm, Decoder.readN_exact]
  dsimp only [encInt64]
  rw [
    fromBytesLE_toBytesLE_of_lt 8 _ (by
      have := toUnsigned_lt 64 v
      norm_num at this ⊢; omega),
    toSigned_toUnsigned 64 v (by norm_num) (by norm_num at h1 ⊢; omega)
      (by norm_num at h2 ⊢; omega)]

theorem Decoder.int32_enc (v : Int) (rest : List Byte)
    (h1 : -(2 ^ 31) ≤ v) (h2 : v < 2 ^ 31) :
    Decoder.int32 ⟨encInt32 v ++ rest, false⟩ = (v, ⟨rest, false⟩) := by
  have h4 : (encInt32 v).length = 4 := toBytesLE_length 4 _
  unfold Decoder.int32
  rw [show (4 : Nat) = (encInt32 v).length from h4.symm, Decoder.readN_exact]
  dsimp only [encInt32]
  rw [
    fromBytesLE_toBytesLE_of_lt 4 _ (by
      have := toUnsigned_lt 32 v
      norm_num at this ⊢; omega),
    toSigned_toUnsigned 32 v (by norm_num) (by norm_num at h1 ⊢; omega)
      (by norm_num at h2 ⊢; omega)]

theorem Decoder.byte_enc (o : Nat) (rest : List Byte) (ho : o < 256) :
    Decoder.byte ⟨encLobOptions o ++ rest, false⟩ = (o, ⟨rest, false⟩) := by
  unfold Decoder.byte
  rw [show (1 : Nat) = (encLobOptions o).length from rfl, Decoder.readN_exact]
  simp [encLobOptions, fromBytesLE, Nat.mod_eq_of_lt ho]

theorem Decoder.bytes_exact (b rest : List Byte) :
    Decoder.bytes ⟨b ++ rest, false⟩ b.length = (b, ⟨rest, false⟩) :=
  Decoder.readN_exact b rest

theorem Decoder.bytes_all (b : List Byte) :
    Decoder.bytes ⟨b, false⟩ b.length = (b, ⟨[], false⟩) := by
  have h := Decoder.readN_exact b []
  rw [List.append_nil] at h
  exact h

theorem neg_two_pow_le_natCast (k n : Nat) : -((2 : Int) ^ k) ≤ (n : Int) :=
  le_trans (neg_nonpos_of_nonneg (by positivity)) (Int.natCast_nonneg n)

theorem Decoder.skip_exact (p rest : List Byte) (n : Nat) (hp : p.length = n) :
    Decoder.skip ⟨p ++ rest, false⟩ n = ⟨rest, false⟩ := by
  subst hp
  unfold Decoder.skip
  rw [Decoder.readN_exact]

/-! Helper lemmas about FetchNext. -/

theorem isLastData_data_and_last :
    LobOptions.IsLastData (loDataincluded ||| loLastdata) = true := by decide

theorem isLastData_data_only : LobOptions.IsLastData loDataincluded = false := by decide

theorem fetchNext_enough (d : LobInDescr) (C : Nat) (h : C ≤ d.rd.bs.length) :
    d.FetchNext C =
      ({ d with
          buf := d.rd.bs.take C
          rd := ⟨d.rd.bs.drop C, d.rd.terminal⟩
          Opt := loDataincluded }, none) := by
  unfold LobInDescr.FetchNext copyN
  rw [if_pos h]

theorem fetchNext_short_eofish (d : LobInDescr) (C : Nat)
    (ht : d.rd.terminal = .eof ∨ d.rd.terminal = .unexpectedEof)
    (h : d.rd.bs.length < C) :
    d.FetchNext C =
      ({ d with
          buf := d.rd.bs
          rd := ⟨[], d.rd.terminal⟩
          Opt := loDataincluded ||| loLastdata }, none) := by
  unfold LobInDescr.FetchNext copyN
  rw [if_neg (by omega)]
  rcases ht with ht | ht <;> rw [ht]

theorem fetchNext_short_err (d : LobInDescr) (C : Nat) (msg : String)
    (ht : d.rd.terminal = .errOther msg) (h : d.rd.bs.length < C) :
    d.FetchNext C =
      ({ d with buf := d.rd.bs, rd := ⟨[], .errOther msg⟩, Opt := loDataincluded },
       some (.errOther msg)) := by
  unfold LobInDescr.FetchNext copyN
  rw [if_neg (by omega), ht]

/-! Claim theorems. -/

/-- C9: LobOptions is a single byte whose bit 0 is the null indicator,
bit 1 the data-included flag and bit 2 the last-data flag; IsLastData holds
exactly when bit 2 is set and the null test exactly when bit 0 is set. -/
theorem lobOptions_bits :
    loNullindicator = 2 ^ 0 ∧ loDataincluded = 2 ^ 1 ∧ loLastdata = 2 ^ 2 ∧
    (∀ o : LobOptions, (encLobOptions o).length = 1) ∧
    (∀ o : LobOptions, LobOptions.IsLastData o = true ↔ o.testBit 2 = true) ∧
    (∀ o : LobOptions, LobOptions.isNull o = true ↔ o.testBit 0 = true) := by
  refine ⟨rfl, rfl, rfl, fun o => rfl, fun o => ?_, fun o => ?_⟩
  · unfold LobOptions.IsLastData loLastdata
    rw [show (4 : Nat) = 2 ^ 2 by norm_num, Nat.and_two_pow]
    cases h : o.testBit 2 <;> simp [h]
  · unfold LobOptions.isNull loNullindicator
    rw [show (1 : Nat) = 2 ^ 0 by norm_num, Nat.and_two_pow]
    cases h : o.testBit 0 <;> simp [h]

/-- C10: when the source fails with an error other than end-of-input,
FetchNext returns that same error and does not set last-data, but the options
have already been overwritten to exactly data-included and the staging buffer
holds the bytes read before the failure; the prior buffer contents and
options are not restored. -/
theorem fetchNext_error_effects (d : LobInDescr) (C : Nat) (msg : String)
    (ht : d.rd.terminal = .errOther msg) (hlen : d.rd.bs.length < C) :
    d.FetchNext C =
      ({ d with buf := d.rd.bs, rd := ⟨[], .errOther msg⟩, Opt := loDataincluded },
       some (.errOther msg)) ∧
    LobOptions.IsLastData loDataincluded = false :=
  ⟨fetchNext_short_err d C msg ht hlen, isLastData_data_only⟩

/-- Witness for C10 at a concrete descriptor whose prior buffer and options
are visibly discarded. -/
theorem fetchNext_error_effects_witness :
    LobInDescr.FetchNext
        { rd := ⟨[1], .errOther "boom"⟩
          Opt := loDataincluded ||| loLastdata
          pos := 0
          buf := [9, 9] } 3 =
      ({ rd := ⟨[], .errOther "boom"⟩, Opt := loDataincluded, pos := 0, buf := [1] },
       some (.errOther "boom")) ∧
    LobOptions.IsLastData loDataincluded = false :=
  fetchNext_error_effects
    { rd := ⟨[1], .errOther "boom"⟩
      Opt := loDataincluded ||| loLastdata
      pos := 0
      buf := [9, 9] } 3 "boom" rfl (by decide)

/-- C3: a successful FetchNext stages up to `chunkSize` bytes read from the
source, discarding the prior buffer contents, sets data-included
unconditionally and adds last-data exactly when the source reported
end-of-input (clean or truncated); success happens exactly when enough bytes
remain or the terminal is an end-of-input. After a successful
WriteLobDescr.FetchNext the offset is the append sentinel `-1`, the options
equal the inner options and the payload equals the staged chunk. -/
theorem fetchNext_streaming_spec :
    (∀ (d : LobInDescr) (C : Nat),
      ((d.FetchNext C).2 = none ↔
        (C ≤ d.rd.bs.length ∨ d.rd.terminal = .eof ∨ d.rd.terminal = .unexpectedEof)) ∧
      ((d.FetchNext C).2 = none →
        (d.FetchNext C).1.buf = d.rd.bs.take C ∧
        (d.FetchNext C).1.Opt =
          (if d.rd.bs.length < C then loDataincluded ||| loLastdata
           else loDataincluded))) ∧
    (∀ (w : WriteLobDescr) (d : LobInDescr) (C : Nat) (w' : WriteLobDescr),
      w.lobInDescr = some d → w.FetchNext C = some (w', none) →
      w'.ofs = -1 ∧ w'.Opt = (d.FetchNext C).1.Opt ∧
      w'.b = (d.FetchNext C).1.buf ∧ w'.lobInDescr = some (d.FetchNext C).1) := by
  constructor
  · intro d C
    by_cases hlen : C ≤ d.rd.bs.length
    · rw [fetchNext_enough d C hlen]
      refine ⟨by simp [hlen], fun _ => ⟨rfl, ?_⟩⟩
      rw [if_neg (by omega)]
    · have hlt : d.rd.bs.length < C := by omega
      cases ht : d.rd.terminal with
      | eof =>
        rw [fetchNext_short_eofish d C (Or.inl ht) hlt]
        refine ⟨by simp [ht], fun _ => ⟨?_, ?_⟩⟩
        · rw [List.take_of_length_le (by omega)]
        · rw [if_pos hlt]
      | unexpectedEof =>
        rw [fetchNext_short_eofish d C (Or.inr ht) hlt]
        refine ⟨by simp [ht], fun _ => ⟨?_, ?_⟩⟩
        · rw [List.take_of_length_le (by omega)]
        · rw [if_pos hlt]
      | errOther msg =>
        rw [fetchNext_short_err d C msg ht hlt]
        constructor
        · simp only [ht]
          constructor
          · intro h; exact absurd h (by simp)
          · intro h
            rcases h with h | h | h
            · omega
            · exact absurd h (by simp)
            · exact absurd h (by simp)
        · intro h; exact absurd h (by simp)
  · intro w d C w' hw hfetch
    unfold WriteLobDescr.FetchNext at hfetch
    rw [hw] at hfetch
    dsimp only at hfetch
    rcases hd : d.FetchNext C with ⟨d', e⟩
    rw [hd] at hfetch
    cases e with
    | some err => simp at hfetch
    | none =>
      dsimp only at hfetch
      rw [Option.some.injEq, Prod.mk.injEq] at hfetch
      rcases hfetch with ⟨hw', -⟩
      rw [← hw']
      exact ⟨rfl, rfl, rfl, rfl⟩

/-- Witness for C3 at a concrete streaming state. -/
theorem fetchNext_streaming_spec_witness :
    ((LobInDescr.FetchNext (newLobInDescr ⟨[7, 8], .eof⟩) 5).1.buf = [7, 8].take 5 ∧
     (LobInDescr.FetchNext (newLobInDescr ⟨[7, 8], .eof⟩) 5).1.Opt =
       (if ([7, 8] : List Byte).length < 5 then loDataincluded ||| loLastdata
        else loDataincluded)) ∧
    (({ lobInDescr := some ((LobInDescr.FetchNext (newLobInDescr ⟨[7, 8], .eof⟩) 5).1)
        ID := 9
        Opt := (LobInDescr.FetchNext (newLobInDescr ⟨[7, 8], .eof⟩) 5).1.Opt
        ofs := -1
        b := (LobInDescr.FetchNext (newLobInDescr ⟨[7, 8], .eof⟩) 5).1.buf } :
          WriteLobDescr).ofs = -1) := by
  refine ⟨(fetchNext_streaming_spec.1 (newLobInDescr ⟨[7, 8], .eof⟩) 5).2 ?_, ?_⟩
  · exact (fetchNext_streaming_spec.1 (newLobInDescr ⟨[7, 8], .eof⟩) 5).1.mpr
      (Or.inr (Or.inl rfl))
  · exact (fetchNext_streaming_spec.2
      { lobInDescr := some (newLobInDescr ⟨[7, 8], .eof⟩)
        ID := 9
        Opt := 0
        ofs := 0
        b := [] }
      (newLobInDescr ⟨[7, 8], .eof⟩) 5
      { lobInDescr := some ((LobInDescr.FetchNext (newLobInDescr ⟨[7, 8], .eof⟩) 5).1)
        ID := 9
        Opt := (LobInDescr.FetchNext (newLobInDescr ⟨[7, 8], .eof⟩) 5).1.Opt
        ofs := -1
        b := (LobInDescr.FetchNext (newLobInDescr ⟨[7, 8], .eof⟩) 5).1.buf }
      rfl (by decide)).1

/-- C2 counterexample: with source size 5 and chunk size 5 (chunk size divides
the source size evenly) the loop produces 2 chunks, not ceil(5 / 5) = 1: the
final read copies exactly the chunk size without observing end-of-input, so
one extra empty last-data chunk follows. -/
theorem writeLoop_chunk_count_counterexample :
    (fetchLoop 5 3 (newLobInDescr ⟨[1, 2, 3, 4, 5], .eof⟩)).map List.length = some 2 ∧
    ¬ (2 : Nat) = (5 + 5 - 1) / 5 := by decide

/-- C2 amended: for a finite source of size S that cleanly reports
end-of-input and a chunk size C greater than 0, repeatedly calling FetchNext
until last-data is set produces exactly S / C + 1 chunks (floor division) —
that is ceil(S / C) chunks when C does not divide S, one more than
ceil(S / C) when C divides S with S greater than 0, and exactly 1 zero-byte
chunk when S = 0 — and the last-data flag is set on the final chunk and on no
earlier chunk. -/
theorem writeLoop_chunk_count (C : Nat) (hC : 0 < C) :
    ∀ (fuel : Nat) (d : LobInDescr), d.rd.terminal = .eof →
      d.rd.bs.length / C < fuel →
      ∃ l, fetchLoop C fuel d = some l ∧
        l.length = d.rd.bs.length / C + 1 ∧
        ∀ i (hi : i < l.length),
          (LobOptions.IsLastData (l.get ⟨i, hi⟩).2 = true ↔ i = l.length - 1) := by
  intro fuel
  induction fuel with
  | zero => intro d ht hf; exact absurd hf (Nat.not_lt_zero _)
  | succ n ih =>
    intro d ht hf
    by_cases hlen : C ≤ d.rd.bs.length
    · have hfetch := fetchNext_enough d C hlen
      have hdiv : d.rd.bs.length / C = (d.rd.bs.length - C) / C + 1 :=
        Nat.div_eq_sub_div hC hlen
      have hlow : (d.rd.bs.length - C) / C < n := by
        have h1 := hdiv
        have h2 := hf
        generalize (d.rd.bs.length - C) / C = q at h1 ⊢
        generalize d.rd.bs.length / C = p at h1 h2
        omega
      have ih' := ih { d with
          buf := d.rd.bs.take C
          rd := ⟨d.rd.bs.drop C, d.rd.terminal⟩
          Opt := loDataincluded } (by simpa using ht)
        (by show (d.rd.bs.drop C).length / C < n
            rw [List.length_drop]; exact hlow)
      rcases ih' with ⟨l', hl', hlen', hlast'⟩
      have hlen2 : l'.length = (d.rd.bs.length - C) / C + 1 := by
        rw [hlen']
        show (d.rd.bs.drop C).length / C + 1 = _
        rw [List.length_drop]
      have hpos : 1 ≤ l'.length := by
        rw [hlen2]; exact Nat.succ_le_succ (Nat.zero_le _)
      refine ⟨(d.rd.bs.take C, loDataincluded) :: l', ?_, ?_, ?_⟩
      · rw [fetchLoop, hfetch]
        dsimp only
        rw [if_neg (by rw [isLastData_data_only]; exact Bool.false_ne_true), hl']
        rfl
      · simp only [List.length_cons, hlen2]
        rw [hdiv]
      · intro i hi
        simp only [List.length_cons] at hi ⊢
        cases i with
        | zero =>
          dsimp only [List.get]
          rw [isLastData_data_only]
          constructor
          · intro h; exact absurd h Bool.false_ne_true
          · intro h; omega
        | succ j =>
          dsimp only [List.get]
          rw [hlast' j (by omega)]
          omega
    · have hlt : d.rd.bs.length < C := by omega
      have hfetch := fetchNext_short_eofish d C (Or.inl ht) hlt
      refine ⟨[(d.rd.bs, loDataincluded ||| loLastdata)], ?_, ?_, ?_⟩
      · rw [fetchLoop, hfetch]
        dsimp only
        rw [if_pos isLastData_data_and_last]
      · simp [Nat.div_eq_of_lt hlt]
      · intro i hi
        have h0 : i = 0 := by
          simp only [List.length_singleton] at hi; omega
        subst h0
        simp [isLastData_data_and_last]

/-- Witness for C2 at the example of the spec: 7 source bytes, chunk size 5,
two chunks, last-data only on the second. -/
theorem writeLoop_chunk_count_witness :
    ∃ l, fetchLoop 5 2 (newLobInDescr ⟨[97, 98, 99, 100, 101, 102, 103], .eof⟩) = some l ∧
      l.length = ([97, 98, 99, 100, 101, 102, 103] : List Byte).length / 5 + 1 ∧
      ∀ i (hi : i < l.length),
        (LobOptions.IsLastData (l.get ⟨i, hi⟩).2 = true ↔ i = l.length - 1) :=
  writeLoop_chunk_count 5 (by decide) 2
    (newLobInDescr ⟨[97, 98, 99, 100, 101, 102, 103], .eof⟩) rfl (by decide)

/-- C1 counterexample: decode after encode is not the identity on
ReadLobRequest: the encoder writes the offset 1-based while the sniffer
decoder stores the raw wire offset, so the offset comes back incremented. -/
theorem roundtrip_counterexample :
    (ReadLobRequest.decode
        ⟨ReadLobRequest.encode { ID := 0, Ofs := 0, ChunkSize := 0 }, false⟩).1 ≠
      { ID := 0, Ofs := 0, ChunkSize := 0 } := by decide

/-- C1 amended: for every WriteLobDescr whose fields are in machine range,
decoding the encoding restores every wire field (the non-wire inner
descriptor pointer comes back nil) — in particular for zero-length payloads
and all 256 option bytes; for every in-range ReadLobRequest, decoding the
encoding restores the locator id and chunk size but returns the offset
incremented by one, because the encoder adds one (1-based wire offset) and
the sniffer decoder keeps the raw wire value. -/
theorem roundtrip_parts :
    (∀ (w : WriteLobDescr), w.ID < 2 ^ 64 → w.Opt < 256 →
      -(2 ^ 63) ≤ w.ofs → w.ofs < 2 ^ 63 → (w.b.length : Int) < 2 ^ 31 →
      WriteLobDescr.decode ⟨WriteLobDescr.encode w, false⟩ =
        some ({ w with lobInDescr := none }, ⟨[], false⟩)) ∧
    (∀ (r : ReadLobRequest), r.ID < 2 ^ 64 →
      -(2 ^ 63) ≤ r.Ofs → r.Ofs + 1 < 2 ^ 63 →
      -(2 ^ 31) ≤ r.ChunkSize → r.ChunkSize < 2 ^ 31 →
      ReadLobRequest.decode ⟨ReadLobRequest.encode r, false⟩ =
        ({ r with Ofs := r.Ofs + 1 }, ⟨[], false⟩)) := by
  constructor
  · intro w hID hOpt hofs1 hofs2 hlen
    unfold WriteLobDescr.decode WriteLobDescr.encode encBytes
    rw [List.append_assoc, List.append_assoc, List.append_assoc]
    rw [Decoder.uint64_enc _ _ hID]
    dsimp only
    rw [Decoder.byte_enc _ _ hOpt]
    dsimp only
    rw [Decoder.int64_enc _ _ hofs1 hofs2]
    dsimp only
    rw [Decoder.int32_enc _ _ (neg_two_pow_le_natCast 31 _) hlen]
    dsimp only
    rw [if_neg (not_lt.mpr (Int.natCast_nonneg _))]
    rw [show ((w.b.length : Int)).toNat = w.b.length from Int.toNat_natCast _]
    rw [Decoder.bytes_all]
  · intro r hID hofs1 hofs2 hcs1 hcs2
    unfold ReadLobRequest.decode ReadLobRequest.encode
    rw [List.append_assoc, List.append_assoc]
    rw [Decoder.uint64_enc _ _ hID]
    dsimp only
    rw [Decoder.int64_enc _ _ (by omega) hofs2]
    dsimp only
    rw [Decoder.int32_enc _ _ hcs1 hcs2]
    dsimp only
    rw [show (encZeroes 4 : List Byte) = List.replicate 4 0 ++ [] by simp [encZeroes]]
    rw [Decoder.skip_exact _ _ 4 (List.length_replicate 4 0)]

/-- Witness for C1 amended at a concrete descriptor with empty payload and
all option bits set, and a concrete request. -/
theorem roundtrip_parts_witness :
    WriteLobDescr.decode
        ⟨WriteLobDescr.encode
          { lobInDescr := none, ID := 5, Opt := 255, ofs := -1, b := [] }, false⟩ =
      some ({ lobInDescr := none, ID := 5, Opt := 255, ofs := -1, b := [] },
        ⟨[], false⟩) ∧
    ReadLobRequest.decode
        ⟨ReadLobRequest.encode { ID := 2, Ofs := 4, ChunkSize := 4 }, false⟩ =
      ({ ID := 2, Ofs := 5, ChunkSize := 4 }, ⟨[], false⟩) :=
  ⟨roundtrip_parts.1 { lobInDescr := none, ID := 5, Opt := 255, ofs := -1, b := [] }
      (by decide) (by decide) (by decide) (by decide) (by decide),
   roundtrip_parts.2 { ID := 2, Ofs := 4, ChunkSize := 4 }
      (by decide) (by decide) (by decide) (by decide) (by decide)⟩

/-- C4: decoding a ReadLobReply with announced entry count 1 reads exactly one
locator id, one options byte, a size field, 3 skipped bytes and size payload
bytes; any other announced count fails the decode (a panic in Go), never
returning a truncated or padded value. -/
theorem readLobReply_decode_spec :
    (∀ (dec : Decoder) (numArg : Nat), numArg ≠ 1 →
      ReadLobReply.decodeNumArg dec numArg = none) ∧
    (∀ (id : Nat) (opt : Byte) (size : Nat) (pad payload rest : List Byte),
      id < 2 ^ 64 → opt < 256 → (size : Int) < 2 ^ 31 →
      pad.length = 3 → payload.length = size →
      ReadLobReply.decodeNumArg
          ⟨encUint64 id ++ encLobOptions opt ++ encInt32 (size : Int) ++
            pad ++ payload ++ rest, false⟩ 1 =
        some ({ ID := id, Opt := opt, B := payload }, ⟨rest, false⟩)) := by
  constructor
  · intro dec numArg hne
    unfold ReadLobReply.decodeNumArg
    rw [if_pos hne]
  · intro id opt size pad payload rest hid hopt hsize hpad hpayload
    unfold ReadLobReply.decodeNumArg
    rw [if_neg (by simp)]
    rw [List.append_assoc, List.append_assoc, List.append_assoc, List.append_assoc]
    rw [Decoder.uint64_enc _ _ hid]
    dsimp only
    rw [Decoder.byte_enc _ _ hopt]
    dsimp only
    rw [Decoder.int32_enc _ _ (neg_two_pow_le_natCast 31 _) hsize]
    dsimp only
    rw [Decoder.skip_exact pad (payload ++ rest) 3 hpad]
    rw [if_neg (not_lt.mpr (Int.natCast_nonneg _))]
    rw [show ((size : Int)).toNat = size from Int.toNat_natCast _]
    rw [← hpayload, Decoder.bytes_exact]

/-- Witness for C4, the reply-count check at count 2 and a full decode at
count 1. -/
theorem readLobReply_decode_spec_witness :
    ReadLobReply.decodeNumArg ⟨[], false⟩ 2 = none ∧
    ReadLobReply.decodeNumArg
        ⟨encUint64 7 ++ encLobOptions 4 ++ encInt32 (2 : Int) ++
          [5, 5, 5] ++ [65, 66] ++ [99], false⟩ 1 =
      some ({ ID := 7, Opt := 4, B := [65, 66] }, ⟨[99], false⟩) :=
  ⟨readLobReply_decode_spec.1 ⟨[], false⟩ 2 (by decide),
   readLobReply_decode_spec.2 7 4 2 [5, 5, 5] [65, 66] [99]
      (by decide) (by decide) (by decide) (by decide) (by decide)⟩

/-! Helper lemmas for part sizes and sticky errors. -/

theorem WriteLobDescr.encode_length (w : WriteLobDescr) :
    (WriteLobDescr.encode w).length = writeLobRequestSize + w.b.length := by
  unfold WriteLobDescr.encode encUint64 encInt64 encInt32 encLobOptions encBytes
    writeLobRequestSize
  simp [List.length_append, toBytesLE_length]
  omega

theorem writeLobRequest_size_acc (ds : List WriteLobDescr) (acc : Nat) :
    ds.foldl (fun size descr => size + (writeLobRequestSize + descr.b.length)) acc =
      acc + (ds.map (fun descr => writeLobRequestSize + descr.b.length)).sum := by
  induction ds generalizing acc with
  | nil => simp
  | cons d ds ih => simp [List.foldl_cons, ih]; omega

theorem writeLobRequest_encode_length_list (ds : List WriteLobDescr) :
    (ds.foldr (fun descr out => WriteLobDescr.encode descr ++ out) []).length =
      (ds.map (fun descr => writeLobRequestSize + descr.b.length)).sum := by
  induction ds with
  | nil => rfl
  | cons d ds ih => simp [List.foldr_cons, WriteLobDescr.encode_length, ih]

theorem Decoder.readN_err (d : Decoder) (n : Nat) (h : d.err = true) :
    d.readN n = (List.replicate n 0, d) := by
  unfold Decoder.readN
  rw [if_pos h]

theorem toSigned_zero (w : Nat) : toSigned w 0 = 0 := by
  unfold toSigned
  rw [if_pos (by positivity)]
  rfl

theorem decodeIDs_err (n : Nat) (dec : Decoder) (h : dec.err = true) :
    decodeIDs n dec = (List.replicate n 0, dec) := by
  induction n with
  | zero => rfl
  | succ m ih =>
    unfold decodeIDs Decoder.uint64
    rw [Decoder.readN_err _ _ h]
    dsimp only
    rw [ih]
    simp [List.replicate_succ]
    decide

theorem writeLobDescr_decode_err (dec : Decoder) (h : dec.err = true) :
    WriteLobDescr.decode dec =
      some ({ lobInDescr := none, ID := 0, Opt := 0, ofs := 0, b := [] }, dec) := by
  unfold WriteLobDescr.decode Decoder.uint64 Decoder.byte Decoder.int64 Decoder.int32
    Decoder.bytes
  simp only [Decoder.readN_err _ _ h, fromBytesLE_replicate_zero, toSigned_zero,
    Int.toNat_zero, List.replicate_zero]
  rw [if_neg (by norm_num)]

theorem decodeDescrs_err (n : Nat) (dec : Decoder) (h : dec.err = true) :
    decodeDescrs n dec =
      some (List.replicate n { lobInDescr := none, ID := 0, Opt := 0, ofs := 0, b := [] },
        dec) := by
  induction n with
  | zero => rfl
  | succ m ih =>
    unfold decodeDescrs
    rw [writeLobDescr_decode_err dec h]
    dsimp only
    rw [ih]
    dsimp only
    rw [List.replicate_succ]

theorem decodeIDs_insufficient (n : Nat) (dec : Decoder) (hfalse : dec.err = false)
    (hlen : dec.bs.length < 8 * n) (hn : 0 < n) :
    ((decodeIDs n dec).2).err = true := by
  induction n generalizing dec with
  | zero => omega
  | succ m ihm =>
    unfold decodeIDs Decoder.uint64
    by_cases h8 : 8 ≤ dec.bs.length
    · have hread : dec.readN 8 = (dec.bs.take 8, { dec with bs := dec.bs.drop 8 }) := by
        unfold Decoder.readN
        rw [if_neg (by rw [hfalse]; exact Bool.false_ne_true), if_pos h8]
      rw [hread]
      dsimp only
      have hm : 0 < m := by omega
      exact ihm { dec with bs := dec.bs.drop 8 } hfalse
        (by rw [List.length_drop]; omega) hm
    · have hread : dec.readN 8 = (List.replicate 8 0, { bs := [], err := true }) := by
        unfold Decoder.readN
        rw [if_neg (by rw [hfalse]; exact Bool.false_ne_true), if_neg (by omega)]
      rw [hread]
      dsimp only
      rw [decodeIDs_err m _ rfl]

/-- C5: for the writable lob parts the encoded byte count equals the size
query: a write-lob request sizes and encodes to the sum over its descriptors
of the 21-byte fixed overhead plus payload length, and a read-lob request
sizes and encodes to exactly 24 bytes. -/
theorem part_size_eq_encode_length :
    (∀ (r : WriteLobRequest),
      (WriteLobRequest.encode r).length = WriteLobRequest.size r ∧
      WriteLobRequest.size r =
        (r.Descrs.map (fun descr => writeLobRequestSize + descr.b.length)).sum) ∧
    (∀ (r : ReadLobRequest),
      ReadLobRequest.size r = 24 ∧ (ReadLobRequest.encode r).length = 24) := by
  constructor
  · intro r
    have hsize : WriteLobRequest.size r =
        (r.Descrs.map (fun descr => writeLobRequestSize + descr.b.length)).sum := by
      unfold WriteLobRequest.size
      rw [writeLobRequest_size_acc, Nat.zero_add]
    refine ⟨?_, hsize⟩
    rw [hsize]
    exact writeLobRequest_encode_length_list r.Descrs
  · intro r
    refine ⟨rfl, ?_⟩
    unfold ReadLobRequest.encode encUint64 encInt64 encInt32 encZeroes
    simp [List.length_append, toBytesLE_length]

/-- C6: the encoder transmits the stored 0-based offset as offset plus one
(1-based) in the 8 bytes after the 8-byte locator id, followed by the
chunk-size field and exactly 4 bytes of zero padding; hence a request whose
stored offset is N (the bytes consumed so far) carries wire offset N + 1, and
the whole request is 24 bytes. -/
theorem readLobRequest_wire_offset (r : ReadLobRequest) (N : Nat)
    (hofs : r.Ofs = (N : Int)) (hN : N + 1 < 2 ^ 64) :
    ((ReadLobRequest.encode r).drop 8).take 8 = toBytesLE 8 (N + 1) ∧
    fromBytesLE (((ReadLobRequest.encode r).drop 8).take 8) = N + 1 ∧
    (ReadLobRequest.encode r).drop 20 = List.replicate 4 0 ∧
    (ReadLobRequest.encode r).length = 24 := by
  have hu : toUnsigned 64 (r.Ofs + 1) = N + 1 := by
    unfold toUnsigned
    rw [hofs]
    rw [show ((N : Int) + 1) = ((N + 1 : Nat) : Int) by push_cast; ring]
    rw [Int.emod_eq_of_lt (Int.natCast_nonneg _) (by exact_mod_cast hN)]
    exact Int.toNat_natCast _
  have hdrop8 : (ReadLobRequest.encode r).drop 8 =
      encInt64 (r.Ofs + 1) ++ (encInt32 r.ChunkSize ++ encZeroes 4) := by
    rw [show ReadLobRequest.encode r =
        encUint64 r.ID ++ (encInt64 (r.Ofs + 1) ++ (encInt32 r.ChunkSize ++ encZeroes 4))
      by unfold ReadLobRequest.encode; simp [List.append_assoc]]
    rw [show (8 : Nat) = (encUint64 r.ID).length from (toBytesLE_length 8 _).symm]
    exact List.drop_left _ _
  have htake : ((ReadLobRequest.encode r).drop 8).take 8 = encInt64 (r.Ofs + 1) := by
    rw [hdrop8]
    rw [show (8 : Nat) = (encInt64 (r.Ofs + 1)).length from (toBytesLE_length 8 _).symm]
    exact List.take_left _ _
  have hB : encInt64 (r.Ofs + 1) = toBytesLE 8 (N + 1) := by
    unfold encInt64
    rw [hu]
  refine ⟨by rw [htake, hB], ?_, ?_, ?_⟩
  · rw [htake, hB, fromBytesLE_toBytesLE_of_lt _ _ (by norm_num at hN ⊢; omega)]
  · have h20 : ((encUint64 r.ID ++ encInt64 (r.Ofs + 1)) ++ encInt32 r.ChunkSize).length
        = 20 := by
      unfold encUint64 encInt64 encInt32
      simp [List.length_append, toBytesLE_length]
    rw [show ReadLobRequest.encode r =
        ((encUint64 r.ID ++ encInt64 (r.Ofs + 1)) ++ encInt32 r.ChunkSize) ++ encZeroes 4
      from rfl]
    rw [show (20 : Nat) =
        ((encUint64 r.ID ++ encInt64 (r.Ofs + 1)) ++ encInt32 r.ChunkSize).length
      from h20.symm]
    rw [List.drop_left]
    rfl
  · unfold ReadLobRequest.encode encUint64 encInt64 encInt32 encZeroes
    simp [List.length_append, toBytesLE_length]

/-- Witness for C6 at the example of the spec: after 4 consumed bytes the
next request carries wire offset 5. -/
theorem readLobRequest_wire_offset_witness :
    ((ReadLobRequest.encode { ID := 1, Ofs := 4, ChunkSize := 4 }).drop 8).take 8 =
      toBytesLE 8 5 ∧
    fromBytesLE
        (((ReadLobRequest.encode { ID := 1, Ofs := 4, ChunkSize := 4 }).drop 8).take 8) =
      5 ∧
    (ReadLobRequest.encode { ID := 1, Ofs := 4, ChunkSize := 4 }).drop 20 =
      List.replicate 4 0 ∧
    (ReadLobRequest.encode { ID := 1, Ofs := 4, ChunkSize := 4 }).length = 24 :=
  readLobRequest_wire_offset { ID := 1, Ofs := 4, ChunkSize := 4 } 4 rfl (by decide)

/-- C7: the generic part constructor returns the zero-valued instance of the
registered variant for exactly the kinds in the registration table and
returns nothing for every other kind, in particular for the authentication
kind and the metadata-dependent kinds. -/
theorem genPartReader_spec :
    newGenPartReader .PkAuthentication = none ∧
    newGenPartReader .PkParameterMetadata = none ∧
    newGenPartReader .PkParameters = none ∧
    newGenPartReader .PkOutputParameters = none ∧
    newGenPartReader .PkResultMetadata = none ∧
    newGenPartReader .PkResultset = none ∧
    (∀ k : PartKind, (newGenPartReader k).isSome = true ↔ k ∈ registeredKinds) ∧
    newGenPartReader .PkReadLobRequest =
      some (.readLobRequest { ID := 0, Ofs := 0, ChunkSize := 0 }) ∧
    newGenPartReader .PkReadLobReply =
      some (.readLobReply { ID := 0, Opt := 0, B := [] }) ∧
    newGenPartReader .PkWriteLobRequest = some (.writeLobRequest { Descrs := [] }) ∧
    newGenPartReader .PkWriteLobReply = some (.writeLobReply { IDs := [] }) := by
  refine ⟨by decide, by decide, by decide, by decide, by decide, by decide, ?_,
    by decide, by decide, by decide, by decide⟩
  intro k
  cases k <;> decide

/-- C8 counterexample: a primitive-codec failure latched while decoding a
write-lob request descriptor does not make the decode call report failure:
on empty input the decode returns success while the sticky error is set. -/
theorem writeLobRequest_sticky_counterexample :
    (WriteLobRequest.decodeNumArg ⟨[], false⟩ 1).map (fun p => p.2.err) = some true := by
  decide

/-- C8 amended: the write-lob reply decode surfaces the latched codec error
as its result (in particular any under-length input makes it report
failure), while the write-lob request sniffer decode returns success
regardless, leaving the latched error in the decoder to be observed at a
later boundary — the error state is never cleared. -/
theorem sticky_error_boundary :
    (∀ (dec : Decoder) (n : Nat), dec.err = false → 0 < n → dec.bs.length < 8 * n →
      (WriteLobReply.decodeNumArg dec n).2.2 = true) ∧
    (∀ (dec : Decoder) (n : Nat),
      (WriteLobReply.decodeNumArg dec n).2.2 =
        Decoder.error (WriteLobReply.decodeNumArg dec n).2.1) ∧
    (∀ (dec : Decoder) (n : Nat) (r : WriteLobRequest) (dec' : Decoder),
      dec.err = true → WriteLobRequest.decodeNumArg dec n = some (r, dec') →
      dec'.err = true) := by
  refine ⟨?_, ?_, ?_⟩
  · intro dec n hf hn hlen
    unfold WriteLobReply.decodeNumArg
    dsimp only
    exact decodeIDs_insufficient n dec hf hlen hn
  · intro dec n
    rfl
  · intro dec n r dec' h hdec
    unfold WriteLobRequest.decodeNumArg at hdec
    rw [decodeDescrs_err n dec h] at hdec
    dsimp only [Option.map] at hdec
    rw [Option.some.injEq, Prod.mk.injEq] at hdec
    rw [← hdec.2]
    exact h

/-- Witness for C8 amended: the reply decode reports failure on empty input;
the request decode hands back the still-latched decoder. -/
theorem sticky_error_boundary_witness :
    (WriteLobReply.decodeNumArg ⟨[], false⟩ 1).2.2 = true ∧
    ({ bs := [], err := true } : Decoder).err = true :=
  ⟨sticky_error_boundary.1 ⟨[], false⟩ 1 rfl (by decide) (by decide),
   sticky_error_boundary.2.2 ⟨[], true⟩ 0 { Descrs := [] } ⟨[], true⟩ rfl rfl⟩

end GoHdb
